import Mathlib

/-!
Verification of the `geomet-rs` 2D vector library.

The source (`src/vector2d/mod.rs`) defines a generic pair type
`Vector2D<T>(T, T)` with constructors `new`, `zero`, accessors `x`, `y`,
and a polar-angle comparator `arg_cmp` implemented as

    ((self.y(), self.x()) < (T::default(), T::default()))
        .cmp(&((other.y(), other.x()) < (T::default(), T::default())))
        .then_with(|| (other.x() * self.y()).cmp(&(self.x() * other.y())))

guarded by two `debug_assert!` checks that neither operand is the zero
vector.  We embed the type shallowly: `cmp3` models Rust's `Ord::cmp` on a
totally ordered type, `boolCmp` models `Ord` on `bool` (`false < true`),
`lowerHalf` models the lexicographic pair test, and `arg_cmp_checked`
models the comparator in a debug build, where a zero operand is a fatal
assertion failure (`none`).
-/

set_option maxHeartbeats 1000000

namespace GeometRs

/-- The `Vector2D<T>(T, T)` tuple struct: an ordered pair of components. -/
structure Vector2D (α : Type) where
  c0 : α
  c1 : α
deriving DecidableEq

namespace Vector2D

variable {α : Type}

/-- `Vector2D::new(x, y)`. -/
def new (x y : α) : Vector2D α := ⟨x, y⟩

/-- `Vector2D::x(&self)`: the first component, by value. -/
def x (v : Vector2D α) : α := v.c0

/-- `Vector2D::y(&self)`: the second component, by value. -/
def y (v : Vector2D α) : α := v.c1

/-- `Vector2D::zero()`: the pair of `T::default()` values. -/
def zero [Inhabited α] : Vector2D α := ⟨default, default⟩

/-- Rust's `Ord::cmp` on a totally ordered type. -/
def cmp3 [LinearOrder α] (a b : α) : Ordering :=
  if a < b then .lt else if a = b then .eq else .gt

/-- Rust's `Ord::cmp` on `bool`, where `false < true`. -/
def boolCmp : Bool → Bool → Ordering
  | false, true => .lt
  | true, false => .gt
  | _, _ => .eq

/-- The test `(self.y(), self.x()) < (T::default(), T::default())` from
`arg_cmp`, with Rust's lexicographic `Ord` on pairs unfolded. -/
def lowerHalf [LinearOrder α] [Inhabited α] (v : Vector2D α) : Bool :=
  decide (v.y < (default : α)) ||
    (decide (v.y = (default : α)) && decide (v.x < (default : α)))

/-- `Vector2D::arg_cmp` without the debug assertions (a release build). -/
def arg_cmp [LinearOrder α] [Mul α] [Inhabited α]
    (self other : Vector2D α) : Ordering :=
  (boolCmp self.lowerHalf other.lowerHalf).then
    (cmp3 (other.x * self.y) (self.x * other.y))

/-- `Vector2D::arg_cmp` in a debug build: the two `debug_assert!` guards
fire (modelled as `none`) when either operand equals the zero vector. -/
def arg_cmp_checked [LinearOrder α] [Mul α] [Inhabited α]
    (self other : Vector2D α) : Option Ordering :=
  if self = zero then none
  else if other = zero then none
  else some (arg_cmp self other)

/-- Modelled from the spec (section 4.1, step 1): a vector is in the
lower half iff `y < 0`, or `y == 0` and `x < 0`, with the default value
of `T` playing the role of `0`. -/
def spec_lower_half [LinearOrder α] [Inhabited α] (v : Vector2D α) : Prop :=
  v.y < (default : α) ∨ (v.y = (default : α) ∧ v.x < (default : α))

instance [LinearOrder α] [Inhabited α] (v : Vector2D α) :
    Decidable (spec_lower_half v) :=
  inferInstanceAs (Decidable (Or _ _))

/-- Modelled from the spec (section 4.1, steps 2 to 4): half A (not lower)
sorts before half B (lower); within the same half `self` sorts before
`other` exactly when `other.x * self.y < self.x * other.y`, and they
compare equal when neither strict comparison holds. -/
def spec_arg_cmp [LinearOrder α] [Mul α] [Inhabited α]
    (self other : Vector2D α) : Ordering :=
  if spec_lower_half self then
    if spec_lower_half other then
      if other.x * self.y < self.x * other.y then .lt
      else if self.x * other.y < other.x * self.y then .gt
      else .eq
    else .gt
  else
    if spec_lower_half other then .lt
    else
      if other.x * self.y < self.x * other.y then .lt
      else if self.x * other.y < other.x * self.y then .gt
      else .eq

/-- The 2D scalar cross product of two integer vectors, used to phrase the
within-half comparison. -/
def cross (a b : Vector2D ℤ) : ℤ := a.x * b.y - b.x * a.y

theorem cmp3_eq_lt_iff [LinearOrder α] (a b : α) :
    cmp3 a b = Ordering.lt ↔ a < b := by
  unfold cmp3
  split_ifs with h1 h2
  · simp [h1]
  · simp [h1]
  · simp [h1]

theorem cmp3_eq_eq_iff [LinearOrder α] (a b : α) :
    cmp3 a b = Ordering.eq ↔ a = b := by
  unfold cmp3
  split_ifs with h1 h2
  · simp [ne_of_lt h1]
  · simp [h2]
  · simp [h2]

theorem cmp3_self [LinearOrder α] (a : α) : cmp3 a a = Ordering.eq := by
  simp [cmp3]

theorem cmp3_swap [LinearOrder α] (a b : α) :
    cmp3 b a = (cmp3 a b).swap := by
  rcases lt_trichotomy a b with h | h | h
  · simp [cmp3, h, lt_asymm h, ne_of_gt h, Ordering.swap]
  · subst h; simp [cmp3, lt_irrefl, Ordering.swap]
  · simp [cmp3, h, lt_asymm h, ne_of_gt h, ne_of_lt h, Ordering.swap]

theorem cmp3_eq_if_chain [LinearOrder α] (u v : α) :
    cmp3 u v =
      if u < v then Ordering.lt else if v < u then Ordering.gt else Ordering.eq := by
  rcases lt_trichotomy u v with h | h | h
  · simp [cmp3, h]
  · subst h; simp [cmp3, lt_irrefl]
  · simp [cmp3, h, lt_asymm h, ne_of_gt h]

theorem boolCmp_self (a : Bool) : boolCmp a a = Ordering.eq := by
  cases a <;> rfl

theorem boolCmp_swap (a b : Bool) : boolCmp b a = (boolCmp a b).swap := by
  cases a <;> cases b <;> rfl

theorem ordering_then_swap (a b : Ordering) :
    (a.then b).swap = a.swap.then b.swap := by
  cases a <;> rfl

theorem lowerHalf_iff_spec [LinearOrder α] [Inhabited α] (v : Vector2D α) :
    lowerHalf v = true ↔ spec_lower_half v := by
  simp [lowerHalf, spec_lower_half]

theorem lowerHalf_false_iff_spec [LinearOrder α] [Inhabited α] (v : Vector2D α) :
    lowerHalf v = false ↔ ¬ spec_lower_half v := by
  rw [Bool.eq_false_iff, ne_eq, lowerHalf_iff_spec]

theorem default_int : (default : ℤ) = 0 := rfl

theorem lowerHalf_true_iff (v : Vector2D ℤ) :
    lowerHalf v = true ↔ v.y < 0 ∨ (v.y = 0 ∧ v.x < 0) := by
  rw [lowerHalf_iff_spec]
  simp [spec_lower_half, default_int]

theorem lowerHalf_false_iff (v : Vector2D ℤ) :
    lowerHalf v = false ↔ 0 < v.y ∨ (v.y = 0 ∧ 0 ≤ v.x) := by
  rw [Bool.eq_false_iff, ne_eq, lowerHalf_true_iff]
  omega

theorem eq_zero_iff (v : Vector2D ℤ) : v = zero ↔ v.x = 0 ∧ v.y = 0 := by
  cases v with
  | mk a b => simp [zero, x, y, default_int, Vector2D.mk.injEq, And.comm]

theorem upper_y_nonneg {v : Vector2D ℤ} (h : lowerHalf v = false) : 0 ≤ v.y := by
  rcases (lowerHalf_false_iff v).mp h with h' | h' <;> omega

theorem upper_x_nonneg {v : Vector2D ℤ} (h : lowerHalf v = false)
    (hy : v.y = 0) : 0 ≤ v.x := by
  rcases (lowerHalf_false_iff v).mp h with h' | h' <;> omega

theorem upper_x_pos {v : Vector2D ℤ} (h : lowerHalf v = false)
    (hv : v ≠ zero) (hy : v.y = 0) : 0 < v.x := by
  rw [ne_eq, eq_zero_iff] at hv
  rcases (lowerHalf_false_iff v).mp h with h' | h' <;> omega

theorem lower_y_nonpos {v : Vector2D ℤ} (h : lowerHalf v = true) : v.y ≤ 0 := by
  rcases (lowerHalf_true_iff v).mp h with h' | h' <;> omega

theorem lower_x_neg {v : Vector2D ℤ} (h : lowerHalf v = true)
    (hy : v.y = 0) : v.x < 0 := by
  rcases (lowerHalf_true_iff v).mp h with h' | h' <;> omega

theorem arg_cmp_eq_lt_iff (a b : Vector2D ℤ) :
    arg_cmp a b = Ordering.lt ↔
      (lowerHalf a = false ∧ lowerHalf b = true) ∨
        (lowerHalf a = lowerHalf b ∧ 0 < cross a b) := by
  have hsub : (0 < cross a b) ↔ b.x * a.y < a.x * b.y := by
    unfold cross; constructor <;> intro h <;> linarith
  cases ha : lowerHalf a <;> cases hb : lowerHalf b <;>
    simp [arg_cmp, ha, hb, boolCmp, Ordering.then, cmp3_eq_lt_iff, hsub]

theorem arg_cmp_eq_eq_iff (a b : Vector2D ℤ) :
    arg_cmp a b = Ordering.eq ↔
      lowerHalf a = lowerHalf b ∧ cross a b = 0 := by
  have hsub : (cross a b = 0) ↔ b.x * a.y = a.x * b.y := by
    unfold cross; constructor <;> intro h <;> linarith
  cases ha : lowerHalf a <;> cases hb : lowerHalf b <;>
    simp [arg_cmp, ha, hb, boolCmp, Ordering.then, cmp3_eq_eq_iff, hsub]

theorem arg_cmp_swap_eq [LinearOrder α] [Mul α] [Inhabited α]
    (a b : Vector2D α) : arg_cmp b a = (arg_cmp a b).swap := by
  unfold arg_cmp
  rw [ordering_then_swap, ← boolCmp_swap, ← cmp3_swap]

theorem arg_cmp_self_eq [LinearOrder α] [Mul α] [Inhabited α]
    (a : Vector2D α) : arg_cmp a a = Ordering.eq := by
  unfold arg_cmp
  rw [boolCmp_self, cmp3_self]
  rfl

theorem cross_trans_upper {a b c : Vector2D ℤ} (hc : c ≠ zero)
    (la : lowerHalf a = false) (lb : lowerHalf b = false)
    (lc : lowerHalf c = false)
    (hab : 0 < cross a b) (hbc : 0 < cross b c) : 0 < cross a c := by
  have hay : 0 ≤ a.y := upper_y_nonneg la
  have hby : 0 ≤ b.y := upper_y_nonneg lb
  have hcy : 0 ≤ c.y := upper_y_nonneg lc
  have key : b.y * cross a c = c.y * cross a b + a.y * cross b c := by
    unfold cross; ring
  by_contra hX
  push_neg at hX
  have h1 : b.y * cross a c ≤ 0 := mul_nonpos_iff.mpr (Or.inl ⟨hby, hX⟩)
  rcases hby.lt_or_eq with hby' | hby'
  · rcases hay.lt_or_eq with hay' | hay'
    · have h2 : 0 ≤ c.y * cross a b := mul_nonneg hcy hab.le
      have h3 : 0 < a.y * cross b c := mul_pos hay' hbc
      linarith
    · have h0 : a.y * cross b c = 0 := by rw [← hay']; ring
      rcases hcy.lt_or_eq with hcy' | hcy'
      · have h2 : 0 < c.y * cross a b := mul_pos hcy' hab
        linarith
      · have hcx : 0 < c.x := upper_x_pos lc hc hcy'.symm
        have e : cross b c = b.x * c.y - c.x * b.y := rfl
        rw [← hcy'] at e
        have e' : cross b c = -(c.x * b.y) := by rw [e]; ring
        have hp : 0 < c.x * b.y := mul_pos hcx hby'
        linarith
  · have hbx : 0 ≤ b.x := upper_x_nonneg lb hby'.symm
    have e : cross a b = a.x * b.y - b.x * a.y := rfl
    rw [← hby'] at e
    have e' : cross a b = -(b.x * a.y) := by rw [e]; ring
    have hp : 0 ≤ b.x * a.y := mul_nonneg hbx hay
    linarith

theorem cross_trans_lower {a b c : Vector2D ℤ}
    (la : lowerHalf a = true) (lb : lowerHalf b = true)
    (lc : lowerHalf c = true)
    (hab : 0 < cross a b) (hbc : 0 < cross b c) : 0 < cross a c := by
  have hay : a.y ≤ 0 := lower_y_nonpos la
  have hby : b.y ≤ 0 := lower_y_nonpos lb
  have hcy : c.y ≤ 0 := lower_y_nonpos lc
  have key : b.y * cross a c = c.y * cross a b + a.y * cross b c := by
    unfold cross; ring
  by_contra hX
  push_neg at hX
  have h1 : 0 ≤ b.y * cross a c := by
    have hm := mul_nonneg (neg_nonneg.mpr hby) (neg_nonneg.mpr hX)
    rwa [neg_mul_neg] at hm
  rcases hby.lt_or_eq with hby' | hby'
  · rcases hay.lt_or_eq with hay' | hay'
    · have h2 : c.y * cross a b ≤ 0 := mul_nonpos_iff.mpr (Or.inr ⟨hcy, hab.le⟩)
      have h3 : a.y * cross b c < 0 := mul_neg_of_neg_of_pos hay' hbc
      linarith
    · have h0 : a.y * cross b c = 0 := by rw [hay']; ring
      rcases hcy.lt_or_eq with hcy' | hcy'
      · have h2 : c.y * cross a b < 0 := mul_neg_of_neg_of_pos hcy' hab
        linarith
      · have hcx : c.x < 0 := lower_x_neg lc hcy'
        have e : cross b c = b.x * c.y - c.x * b.y := rfl
        rw [hcy'] at e
        have e' : cross b c = -(c.x * b.y) := by rw [e]; ring
        have hp : 0 < c.x * b.y := mul_pos_of_neg_of_neg hcx hby'
        linarith
  · have hbx : b.x < 0 := lower_x_neg lb hby'
    have e : cross a b = a.x * b.y - b.x * a.y := rfl
    rw [hby'] at e
    have e' : cross a b = -(b.x * a.y) := by rw [e]; ring
    have hp : 0 ≤ b.x * a.y := by
      have hm := mul_nonneg (neg_nonneg.mpr hbx.le) (neg_nonneg.mpr hay)
      rwa [neg_mul_neg] at hm
    linarith

theorem arg_cmp_lt_trans {a b c : Vector2D ℤ} (hc : c ≠ zero)
    (hab : arg_cmp a b = Ordering.lt) (hbc : arg_cmp b c = Ordering.lt) :
    arg_cmp a c = Ordering.lt := by
  rw [arg_cmp_eq_lt_iff] at hab hbc ⊢
  rcases hab with ⟨la, lb⟩ | ⟨hl, hcr⟩ <;> rcases hbc with ⟨lb2, lc⟩ | ⟨hl2, hcr2⟩
  · rw [lb] at lb2; exact absurd lb2 (by simp)
  · exact Or.inl ⟨la, hl2 ▸ lb⟩
  · exact Or.inl ⟨hl.trans lb2, lc⟩
  · cases hB : lowerHalf b with
    | false =>
      have lA : lowerHalf a = false := hl.trans hB
      have lC : lowerHalf c = false := hl2.symm.trans hB
      exact Or.inr ⟨hl.trans hl2, cross_trans_upper hc lA hB lC hcr hcr2⟩
    | true =>
      have lA : lowerHalf a = true := hl.trans hB
      have lC : lowerHalf c = true := hl2.symm.trans hB
      exact Or.inr ⟨hl.trans hl2, cross_trans_lower lA hB lC hcr hcr2⟩

/-- Claim C1: for non-zero vectors over a totally ordered numeric type,
`arg_cmp` follows the half-plane-plus-cross-product algorithm of the spec:
lower-half classification is the lexicographic test `(y, x) < (0, 0)`, the
primary key sorts not-lower-half before lower-half, and within a half
`self` sorts before `other` exactly when `other.x * self.y < self.x *
other.y`. -/
theorem arg_cmp_refines_spec {α : Type} [LinearOrder α] [Mul α] [Inhabited α]
    (self other : Vector2D α) (_hs : self ≠ zero) (_ho : other ≠ zero) :
    arg_cmp self other = spec_arg_cmp self other := by
  by_cases h1 : spec_lower_half self <;> by_cases h2 : spec_lower_half other
  · have e1 : lowerHalf self = true := (lowerHalf_iff_spec self).mpr h1
    have e2 : lowerHalf other = true := (lowerHalf_iff_spec other).mpr h2
    simp [arg_cmp, spec_arg_cmp, e1, e2, h1, h2, boolCmp, Ordering.then,
      cmp3_eq_if_chain]
  · have e1 : lowerHalf self = true := (lowerHalf_iff_spec self).mpr h1
    have e2 : lowerHalf other = false := (lowerHalf_false_iff_spec other).mpr h2
    simp [arg_cmp, spec_arg_cmp, e1, e2, h1, h2, boolCmp, Ordering.then]
  · have e1 : lowerHalf self = false := (lowerHalf_false_iff_spec self).mpr h1
    have e2 : lowerHalf other = true := (lowerHalf_iff_spec other).mpr h2
    simp [arg_cmp, spec_arg_cmp, e1, e2, h1, h2, boolCmp, Ordering.then]
  · have e1 : lowerHalf self = false := (lowerHalf_false_iff_spec self).mpr h1
    have e2 : lowerHalf other = false := (lowerHalf_false_iff_spec other).mpr h2
    simp [arg_cmp, spec_arg_cmp, e1, e2, h1, h2, boolCmp, Ordering.then,
      cmp3_eq_if_chain]

/-- Witness for the C1 theorem at a concrete pair of integer vectors. -/
theorem arg_cmp_refines_spec_witness :
    arg_cmp (new (3:ℤ) 2) (new (-1) (-2)) =
      spec_arg_cmp (new (3:ℤ) 2) (new (-1) (-2)) :=
  arg_cmp_refines_spec (new 3 2) (new (-1) (-2)) (by decide) (by decide)

/-- Claim C2: for `S = new(0, -1)` and `E = new(1, 0)` over the integers,
`S.arg_cmp(&E)` returns `Greater` (the wrap-around case: `E` has argument
0 and sorts first overall), and symmetrically `E.arg_cmp(&S)` is `Less`. -/
theorem south_vs_east_gt :
    arg_cmp (new (0:ℤ) (-1)) (new 1 0) = Ordering.gt ∧
    arg_cmp (new (1:ℤ) 0) (new 0 (-1)) = Ordering.lt := by
  decide

/-- Claim C3: in a debug build, `arg_cmp` hits its fatal assertion exactly
when one operand is the zero vector (in particular on
`zero().arg_cmp(&new(1, 0))`), and this is the only failure mode of the
library: `new`, `x`, `y` and `zero` are total and defined at every
input. -/
theorem arg_cmp_checked_failure_iff :
    (∀ a b : Vector2D ℤ, arg_cmp_checked a b = none ↔ a = zero ∨ b = zero) ∧
    arg_cmp_checked (zero : Vector2D ℤ) (new 1 0) = none ∧
    (∀ x0 y0 : ℤ, (new x0 y0).x = x0 ∧ (new x0 y0).y = y0) ∧
    (zero : Vector2D ℤ).x = 0 ∧ (zero : Vector2D ℤ).y = 0 := by
  refine ⟨?_, by decide, fun x0 y0 => ⟨rfl, rfl⟩, rfl, rfl⟩
  intro a b
  unfold arg_cmp_checked
  split_ifs with hA hB
  · simp [hA]
  · simp [hB]
  · simp [hA, hB]

/-- Claim C4: over the integers, `arg_cmp` is a strict total order on
directions of non-zero vectors: it is reflexive into `Equal`, comparing
the operands in the opposite order yields the reversed result, and `Less`
is transitive. -/
theorem arg_cmp_strict_total_order :
    (∀ a : Vector2D ℤ, a ≠ zero → arg_cmp a a = Ordering.eq) ∧
    (∀ a b : Vector2D ℤ, a ≠ zero → b ≠ zero →
      arg_cmp b a = (arg_cmp a b).swap) ∧
    (∀ a b c : Vector2D ℤ, a ≠ zero → b ≠ zero → c ≠ zero →
      arg_cmp a b = Ordering.lt → arg_cmp b c = Ordering.lt →
      arg_cmp a c = Ordering.lt) :=
  ⟨fun a _ => arg_cmp_self_eq a,
   fun a b _ _ => arg_cmp_swap_eq a b,
   fun _ _ _ _ _ hc hab hbc => arg_cmp_lt_trans hc hab hbc⟩

/-- Witness for the C4 theorem: transitivity applied to the concrete
chain east, north, west. -/
theorem arg_cmp_strict_total_order_witness :
    arg_cmp (new (1:ℤ) 0) (new (-1) 0) = Ordering.lt :=
  arg_cmp_strict_total_order.2.2 (new 1 0) (new 0 1) (new (-1) 0)
    (by decide) (by decide) (by decide) (by decide) (by decide)

/-- Claim C5: the concrete boundary cases: `E.arg_cmp(&E) == Equal`,
`E.arg_cmp(&N) == Less`, `N.arg_cmp(&W) == Less`, `W.arg_cmp(&S) == Less`
(both lower-half, decided by the cross-product tie-break), and
`NE.arg_cmp(&SW) == Less`. -/
theorem arg_cmp_boundary_cases :
    arg_cmp (new (1:ℤ) 0) (new 1 0) = Ordering.eq ∧
    arg_cmp (new (1:ℤ) 0) (new 0 1) = Ordering.lt ∧
    arg_cmp (new (0:ℤ) 1) (new (-1) 0) = Ordering.lt ∧
    arg_cmp (new (-1:ℤ) 0) (new 0 (-1)) = Ordering.lt ∧
    arg_cmp (new (1:ℤ) 1) (new (-1) (-1)) = Ordering.lt ∧
    lowerHalf (new (-1:ℤ) 0) = true ∧
    lowerHalf (new (0:ℤ) (-1)) = true := by
  decide

/-- Claim C6: construction/accessor round-trip: for all values `x0, y0` of
the component type, `new(x0, y0).x() == x0` and `new(x0, y0).y() == y0`;
`new` accepts any pair of values without validation. -/
theorem new_roundtrip {α : Type} (x0 y0 : α) :
    (new x0 y0).x = x0 ∧ (new x0 y0).y = y0 :=
  ⟨rfl, rfl⟩

/-- Claim C7: equality is structural: two vectors are equal iff both
components are equal; `zero() == zero()`; and `zero()` equals exactly the
vectors whose both components equal the default value of the component
type. -/
theorem eq_structural {α : Type} [DecidableEq α] [Inhabited α] :
    (∀ a b : Vector2D α, a = b ↔ a.x = b.x ∧ a.y = b.y) ∧
    (zero : Vector2D α) = zero ∧
    (∀ v : Vector2D α, v = zero ↔ v.x = (default : α) ∧ v.y = (default : α)) := by
  refine ⟨?_, rfl, ?_⟩
  · intro a b
    cases a; cases b
    simp [x, y, Vector2D.mk.injEq]
  · intro v
    cases v
    simp [zero, x, y, Vector2D.mk.injEq]

/-- Counterexample to C8 as stated: the zero vector does not behave
exactly like a vector on the positive x-axis. Against `new(0, 1)` the
vector `new(1, 0)` compares `Less`, while `zero()` compares `Equal`. -/
theorem zero_vs_pos_x_axis_differ :
    arg_cmp (zero : Vector2D ℤ) (new 0 1) = Ordering.eq ∧
    arg_cmp (new (1:ℤ) 0) (new 0 1) = Ordering.lt ∧
    arg_cmp (zero : Vector2D ℤ) (new 0 1) ≠ arg_cmp (new (1:ℤ) 0) (new 0 1) := by
  decide

/-- Claim C8 (amended): with assertions disabled, `arg_cmp` with a zero
left operand is deterministic: the zero vector is classified
not-lower-half, all its cross-product terms vanish, and
`zero().arg_cmp(&v)` returns `Equal` for every non-zero `v` in the upper
half (in particular for `new(1, 0)`) and `Less` for every `v` in the
lower half; the zero vector is classified into the same half as a vector
on the positive x-axis, but does not compare like one. -/
theorem arg_cmp_zero_left_behavior :
    lowerHalf (zero : Vector2D ℤ) = false ∧
    (∀ v : Vector2D ℤ,
      v.x * (zero : Vector2D ℤ).y = 0 ∧ (zero : Vector2D ℤ).x * v.y = 0) ∧
    (∀ v : Vector2D ℤ, v ≠ zero → lowerHalf v = false →
      arg_cmp zero v = Ordering.eq) ∧
    (∀ v : Vector2D ℤ, lowerHalf v = true → arg_cmp zero v = Ordering.lt) ∧
    arg_cmp (zero : Vector2D ℤ) (new 1 0) = Ordering.eq := by
  have hz : lowerHalf (zero : Vector2D ℤ) = false := by decide
  have hzy : (zero : Vector2D ℤ).y = 0 := rfl
  have hzx : (zero : Vector2D ℤ).x = 0 := rfl
  refine ⟨hz, fun v => ⟨by rw [hzy, mul_zero], by rw [hzx, zero_mul]⟩,
    fun v _ hv => ?_, fun v hv => ?_, by decide⟩
  · simp [arg_cmp, hz, hv, hzy, hzx, mul_zero, zero_mul, cmp3_self, boolCmp,
      Ordering.then]
  · simp [arg_cmp, hz, hv, boolCmp, Ordering.then]

/-- Witness for the amended C8 theorem at the concrete upper-half vector
`new(0, 1)`. -/
theorem arg_cmp_zero_left_behavior_witness :
    arg_cmp (zero : Vector2D ℤ) (new 0 1) = Ordering.eq :=
  arg_cmp_zero_left_behavior.2.2.1 (new 0 1) (by decide) (by decide)

/-- Claim C9: for every non-zero integer vector `new(x0, y0)`, its
opposite `new(-x0, -y0)` falls in the other half, so the comparison never
returns `Equal`, even though the cross-product term
`other.x * self.y - self.x * other.y` is zero. -/
theorem arg_cmp_opposite_ne_eq (x0 y0 : ℤ) (h : new x0 y0 ≠ zero) :
    lowerHalf (new (-x0) (-y0)) = !lowerHalf (new x0 y0) ∧
    arg_cmp (new x0 y0) (new (-x0) (-y0)) ≠ Ordering.eq ∧
    (new (-x0) (-y0)).x * (new x0 y0).y -
      (new x0 y0).x * (new (-x0) (-y0)).y = 0 := by
  have hne : ¬(x0 = 0 ∧ y0 = 0) := by
    rw [ne_eq, eq_zero_iff] at h
    simpa [new, x, y] using h
  have hflip : lowerHalf (new (-x0) (-y0)) = !lowerHalf (new x0 y0) := by
    cases hl : lowerHalf (new x0 y0) with
    | true =>
      rw [lowerHalf_true_iff] at hl
      rw [Bool.not_true, lowerHalf_false_iff]
      simp only [new, x, y] at hl ⊢
      omega
    | false =>
      rw [lowerHalf_false_iff] at hl
      rw [Bool.not_false, lowerHalf_true_iff]
      simp only [new, x, y] at hl ⊢
      omega
  refine ⟨hflip, ?_, by simp only [new, x, y]; ring⟩
  intro hEq
  rw [arg_cmp_eq_eq_iff] at hEq
  obtain ⟨hsame, _⟩ := hEq
  rw [hflip] at hsame
  cases lowerHalf (new x0 y0) <;> simp at hsame

/-- Witness for the C9 theorem at the concrete vector `new(1, 2)`. -/
theorem arg_cmp_opposite_ne_eq_witness :
    arg_cmp (new (1:ℤ) 2) (new (-1) (-2)) ≠ Ordering.eq :=
  (arg_cmp_opposite_ne_eq 1 2 (by decide)).2.1

/-- Claim C10: for non-zero integer vectors, `arg_cmp` returns `Equal`
exactly when both vectors lie in the same half and
`other.x * self.y == self.x * other.y`; hence distinct vectors of the
same direction, such as `new(1, 2)` and `new(2, 4)`, compare `Equal`. -/
theorem arg_cmp_eq_iff_collinear_same_half :
    (∀ a b : Vector2D ℤ, a ≠ zero → b ≠ zero →
      (arg_cmp a b = Ordering.eq ↔
        lowerHalf a = lowerHalf b ∧ b.x * a.y = a.x * b.y)) ∧
    arg_cmp (new (1:ℤ) 2) (new 2 4) = Ordering.eq ∧
    new (1:ℤ) 2 ≠ new 2 4 := by
  refine ⟨fun a b _ _ => ?_, by decide, by decide⟩
  rw [arg_cmp_eq_eq_iff]
  have hsub : (cross a b = 0) ↔ b.x * a.y = a.x * b.y := by
    unfold cross; constructor <;> intro h <;> linarith
  rw [hsub]

/-- Witness for the C10 theorem at the concrete collinear pair
`new(1, 2)` and `new(2, 4)`. -/
theorem arg_cmp_eq_iff_collinear_same_half_witness :
    arg_cmp (new (1:ℤ) 2) (new 2 4) = Ordering.eq ↔
      lowerHalf (new (1:ℤ) 2) = lowerHalf (new 2 4) ∧
        (new (2:ℤ) 4).x * (new (1:ℤ) 2).y =
          (new (1:ℤ) 2).x * (new (2:ℤ) 4).y :=
  arg_cmp_eq_iff_collinear_same_half.1 (new 1 2) (new 2 4)
    (by decide) (by decide)

end Vector2D

end GeometRs
